import Mathlib

/-!
Verification development for a documentation ingestion/indexing/search engine
(an MDX documentation mirror with an SQLite FTS5 index and a search layer).

The Python source is shallowly embedded: each Python function that a claim
depends on is translated into an executable Lean definition operating on
`List Char` / `String` / explicit table states.  External library behaviour
that the source composes with (Python regex scanning, `str.split`/`strip`/
`lower`/`title`, `json.dumps` serialization, SQLite `LIKE` matching and the
FTS5 unicode61 tokenizer with phrase/OR queries) is modelled explicitly by
definitions that follow the documented semantics of those libraries; ASCII
behaviour is modelled exactly, Unicode-only corner behaviour (e.g. Unicode
whitespace classes) is out of scope of the claims checked here.
-/

namespace TailwindSpec

/-! ## Basic character helpers (ASCII models of Python `str` methods) -/

/-- The character `\x7b` (left curly brace), written via its code point. -/
def braceChar : Char := Char.ofNat 123

/-- Python `str.split()` / `str.strip()` whitespace (ASCII part). -/
def pyIsSpace (c : Char) : Bool :=
  c.toNat == 32 || c.toNat == 9 || c.toNat == 10 || c.toNat == 13 ||
  c.toNat == 11 || c.toNat == 12

/-- Whitespace test on a raw code point (used after lower-casing maps). -/
def natIsSpace (n : Nat) : Bool :=
  n == 32 || n == 9 || n == 10 || n == 13 || n == 11 || n == 12

/-- ASCII lower-casing at the code-point level: `A`-`Z` map to `a`-`z`,
everything else is unchanged.  Models Python `str.lower` and SQLite `LIKE`
case folding, both of which fold ASCII letters only. -/
def charLowerNat (c : Char) : Nat :=
  if 65 ≤ c.toNat ∧ c.toNat ≤ 90 then c.toNat + 32 else c.toNat

/-- ASCII upper-casing at the code-point level. -/
def charUpperNat (c : Char) : Nat :=
  if 97 ≤ c.toNat ∧ c.toNat ≤ 122 then c.toNat - 32 else c.toNat

/-- ASCII letter test. -/
def isAsciiLetter (c : Char) : Bool :=
  (65 ≤ c.toNat && c.toNat ≤ 90) || (97 ≤ c.toNat && c.toNat ≤ 122)

/-- ASCII alphanumeric test. -/
def isAlnumChar (c : Char) : Bool :=
  (48 ≤ c.toNat && c.toNat ≤ 57) || (65 ≤ c.toNat && c.toNat ≤ 90) ||
  (97 ≤ c.toNat && c.toNat ≤ 122)

/-- Word character of the regex `\w` (ASCII part): alphanumeric or `_`. -/
def isWordChar (c : Char) : Bool := isAlnumChar c || c == '_'

/-- Python `str.strip()`: drop leading and trailing whitespace. -/
def pyStrip (l : List Char) : List Char :=
  ((l.dropWhile pyIsSpace).reverse.dropWhile pyIsSpace).reverse

/-- Strip over raw code points (mirror of `pyStrip` after a `charLowerNat` map). -/
def natStrip (l : List Nat) : List Nat :=
  ((l.dropWhile natIsSpace).reverse.dropWhile natIsSpace).reverse

/-- Splitter core: cut `l` at characters satisfying `p`, dropping empty
pieces, accumulating the current word reversed in `cur`. -/
def splitAux (p : Char → Bool) : List Char → List Char → List (List Char)
  | [], cur => if cur.isEmpty then [] else [cur.reverse]
  | c :: rest, cur =>
    if p c then
      if cur.isEmpty then splitAux p rest [] else cur.reverse :: splitAux p rest []
    else splitAux p rest (c :: cur)

/-- Python `str.split()` with no argument: split on whitespace runs,
no empty pieces. -/
def pySplit (l : List Char) : List (List Char) := splitAux pyIsSpace l []

/-- Python `str.replace('-', ' ')` on a list of characters. -/
def pyReplaceHyphen (l : List Char) : List Char :=
  l.map (fun c => if c == '-' then ' ' else c)

/-- Python `str.title()` (ASCII model): a letter following a non-letter is
upper-cased, a letter following a letter is lower-cased, other characters
pass through and reset the word state. -/
def pyTitleAux : List Char → Bool → List Char
  | [], _ => []
  | c :: rest, prevCased =>
    if isAsciiLetter c then
      (if prevCased then Char.ofNat (charLowerNat c) else Char.ofNat (charUpperNat c))
        :: pyTitleAux rest true
    else c :: pyTitleAux rest false

/-- Python `str.title()`. -/
def pyTitle (l : List Char) : List Char := pyTitleAux l false

/-! ## parser.py — `CLASS_PATTERN` scanning and `extract_utility_classes`

Embeds `re.compile(r'class(?:Name)?="([^"]+)"').findall(content)`:
left-to-right, non-overlapping; at each position the literal `className="`
(the greedy optional group first) or `class="` is tried, then a non-empty
run of non-quote characters must be closed by `"`; on failure the scan
advances one character. -/

/-- Attempt to match `class(?:Name)?="([^"]+)"` at the head of `s`;
on success return the captured attribute value and the rest of the input
after the closing quote. -/
def tryClassMatch (s : List Char) : Option (List Char × List Char) :=
  let attempt : List Char → Option (List Char × List Char) := fun rest =>
    let val := rest.takeWhile (fun c => c ≠ '"')
    match rest.dropWhile (fun c => c ≠ '"') with
    | '"' :: after => if val.isEmpty then none else some (val, after)
    | _ => none
  if ("className=\"".data).isPrefixOf s then attempt (s.drop 11)
  else if ("class=\"".data).isPrefixOf s then attempt (s.drop 7)
  else none

/-- Scan the whole input for `CLASS_PATTERN` matches (fuel = input length;
each step consumes at least one character, so the fuel never runs out). -/
def scanClassAttrs : Nat → List Char → List (List Char)
  | 0, _ => []
  | _ + 1, [] => []
  | fuel + 1, c :: rest =>
    match tryClassMatch (c :: rest) with
    | some (val, after) => val :: scanClassAttrs fuel after
    | none => scanClassAttrs fuel rest

/-- All captured `class="..."` / `className="..."` attribute values of a
document body, in source order (`CLASS_PATTERN.findall`). -/
def classAttrValues (l : List Char) : List (List Char) := scanClassAttrs l.length l

/-- The per-token filter of `extract_utility_classes`: keep `cls` when it is
non-empty and starts neither with a brace nor with `...`. -/
def keepTok (t : List Char) : Bool :=
  !t.isEmpty && !([braceChar].isPrefixOf t) && !(['.', '.', '.'].isPrefixOf t)

/-- Python `set.add` modelled on a duplicate-free list. -/
def addTok (acc : List (List Char)) (t : List Char) : List (List Char) :=
  if t ∈ acc then acc else t :: acc

/-- Inner loop of `extract_utility_classes`: accumulate the surviving tokens
of one attribute value into the set. -/
def utilityTokenFold (acc : List (List Char)) (toks : List (List Char)) :
    List (List Char) :=
  toks.foldl (fun a c => if keepTok c then addTok a c else a) acc

/-- `extract_utility_classes` on the raw character list: split every matched
attribute value on whitespace and accumulate the tokens passing `keepTok`
into a set. -/
def extractClassesCore (l : List Char) : List (List Char) :=
  (classAttrValues l).foldl (fun acc v => utilityTokenFold acc (pySplit v)) []

/-- `extract_utility_classes(content)` of parser.py (result as strings;
Python returns a `set`, modelled as a duplicate-free list). -/
def extract_utility_classes (content : String) : List String :=
  (extractClassesCore content.data).map String.mk

/-! ## parser.py — `CODE_BLOCK_PATTERN` scanning and `extract_code_examples`

Embeds `re.compile(r'```(?:\w+)?\n(.*?)```', re.DOTALL)`: an opening fence,
an optional language word, a newline, then a non-greedy capture up to the
first closing fence. -/

/-- The three-backtick fence. -/
def fence : List Char := "```".data

/-- Find the first closing fence in `s`; return the text before it and the
text after it (the non-greedy `(.*?)```  part of the pattern). -/
def findClose : List Char → Option (List Char × List Char)
  | [] => none
  | c :: rest =>
    if fence.isPrefixOf (c :: rest) then some ([], (c :: rest).drop 3)
    else
      match findClose rest with
      | none => none
      | some (cap, after) => some (c :: cap, after)

/-- Attempt to match `CODE_BLOCK_PATTERN` at the head of `s`. -/
def tryCodeMatch (s : List Char) : Option (List Char × List Char) :=
  if fence.isPrefixOf s then
    match (s.drop 3).dropWhile isWordChar with
    | '\n' :: body => findClose body
    | _ => none
  else none

/-- Scan the whole input for fenced code blocks (fuel = input length). -/
def scanCodeBlocks : Nat → List Char → List (List Char)
  | 0, _ => []
  | _ + 1, [] => []
  | fuel + 1, c :: rest =>
    match tryCodeMatch (c :: rest) with
    | some (cap, after) => cap :: scanCodeBlocks fuel after
    | none => scanCodeBlocks fuel rest

/-- All fenced code block bodies of a document, in source order
(`CODE_BLOCK_PATTERN.findall`). -/
def codeBlocksList (l : List Char) : List (List Char) := scanCodeBlocks l.length l

/-- Code points of the lowercase word `class`. -/
def classNat : List Nat := "class".data.map Char.toNat

/-- The filter of `extract_code_examples`:
`'class' in code.lower() and len(code.strip()) > 0`. -/
def keepBlock (code : List Char) : Bool :=
  decide (classNat <:+: code.map charLowerNat) && !(pyStrip code).isEmpty

/-- `extract_code_examples` on the raw character list: keep the blocks that
pass `keepBlock`, stripped, in source order, without deduplication. -/
def extractExamplesCore (l : List Char) : List (List Char) :=
  (codeBlocksList l).foldl
    (fun acc code => if keepBlock code then acc ++ [pyStrip code] else acc) []

/-- `extract_code_examples(content)` of parser.py. -/
def extract_code_examples (content : String) : List String :=
  (extractExamplesCore content.data).map String.mk

/-! ## parser.py — `infer_section`

The path argument is modelled by its list of segments (Python
`Path(...).parts`). -/

/-- `infer_section(file_path)` of parser.py: find the first `docs` segment;
if a further non-final segment follows, title-case it with hyphens replaced
by spaces; if `docs` is last or second-to-last, return `Core`; if absent,
return `General`. -/
def infer_section (parts : List String) : String :=
  match parts.findIdx? (fun p => p == "docs") with
  | some i =>
    if i + 1 < parts.length - 1 then
      String.mk (pyTitle (pyReplaceHyphen (parts.getD (i + 1) "").data))
    else "Core"
  | none => "General"

/-! ## Python `json.dumps` on a list of strings

Models the serialization format the indexer writes into the
`utility_classes` / `code_examples` columns (`json.dumps(list_of_str)` with
default options: `ensure_ascii=True`, separator `", "`). -/

/-- Hex digit (lowercase), as emitted in `\uXXXX` escapes. -/
def hexDigitChar (n : Nat) : Char :=
  if n < 10 then Char.ofNat (48 + n) else Char.ofNat (87 + n)

/-- Four hex digits of a code unit. -/
def hex4 (n : Nat) : List Char :=
  [hexDigitChar (n / 4096 % 16), hexDigitChar (n / 256 % 16),
   hexDigitChar (n / 16 % 16), hexDigitChar (n % 16)]

/-- `\uXXXX` escape, with a surrogate pair for non-BMP code points. -/
def uEscape (n : Nat) : List Char :=
  if n < 65536 then '\\' :: 'u' :: hex4 n
  else
    ('\\' :: 'u' :: hex4 (55296 + (n - 65536) / 1024)) ++
    ('\\' :: 'u' :: hex4 (56320 + (n - 65536) % 1024))

/-- Escape a single character as Python `json.dumps` does. -/
def jsonEscapeChar (c : Char) : List Char :=
  if c.toNat = 34 then ['\\', '"']
  else if c.toNat = 92 then ['\\', '\\']
  else if c.toNat = 10 then ['\\', 'n']
  else if c.toNat = 13 then ['\\', 'r']
  else if c.toNat = 9 then ['\\', 't']
  else if c.toNat = 8 then ['\\', 'b']
  else if c.toNat = 12 then ['\\', 'f']
  else if c.toNat < 32 ∨ 126 < c.toNat then uEscape c.toNat
  else [c]

/-- One JSON string literal. -/
def jsonString (s : String) : List Char :=
  '"' :: ((s.data.map jsonEscapeChar).flatten ++ ['"'])

/-- Body of a JSON array of strings, `", "`-separated. -/
def jsonListBody : List String → List Char
  | [] => []
  | [x] => jsonString x
  | x :: y :: xs => jsonString x ++ ',' :: ' ' :: jsonListBody (y :: xs)

/-- `json.dumps(xs)` for a list of strings. -/
def jsonDumpsList (xs : List String) : List Char :=
  '[' :: (jsonListBody xs ++ [']'])

/-! ## SQLite `LIKE`

Default `LIKE` semantics: `%` matches any sequence, `_` any single
character, other characters compare case-insensitively on ASCII letters;
no ESCAPE clause is in effect in the source queries. -/

/-- Core `LIKE` matcher, driven by explicit fuel (every recursive call
shrinks `p.length + t.length`, so `p.length + t.length + 1` fuel always
suffices; structural recursion keeps the definition kernel-computable). -/
def likeFuel : Nat → List Char → List Char → Bool
  | 0, _, _ => false
  | _ + 1, [], t => t.isEmpty
  | fuel + 1, c :: p, t =>
    if c = '%' then
      likeFuel fuel p t ||
        (match t with
         | [] => false
         | _ :: t' => likeFuel fuel (c :: p) t')
    else
      match t with
      | [] => false
      | d :: t' => (c == '_' || charLowerNat c == charLowerNat d) && likeFuel fuel p t'

/-- `LIKE` matcher: pattern against text. -/
def likeCore (p t : List Char) : Bool := likeFuel (p.length + t.length + 1) p t

/-! ## SQLite FTS5 (unicode61 tokenizer, phrase / OR queries)

Only the query shapes the source issues are modelled: a disjunction of
quoted phrases and bare alphanumeric terms separated by ` OR `.  Anything
else (unbalanced quote, a bare token with punctuation such as `-`, an empty
disjunct) makes the engine raise `sqlite3.OperationalError`, modelled as a
`none` parse. -/

/-- unicode61 tokenization (ASCII model): maximal alphanumeric runs,
case-folded; every other character is a separator. -/
def ftsTokenize (s : List Char) : List (List Nat) :=
  (splitAux (fun c => !isAlnumChar c) s []).map (fun w => w.map charLowerNat)

/-- A parsed phrase: the token sequence that must occur contiguously. -/
abbrev FtsPhrase := List (List Nat)

/-- Split a query string on the ` OR ` operator (fuel = input length). -/
def splitORAux : Nat → List Char → List Char → List (List Char)
  | 0, s, cur => [cur.reverse ++ s]
  | _ + 1, [], cur => [cur.reverse]
  | fuel + 1, c :: rest, cur =>
    if [' ', 'O', 'R', ' '].isPrefixOf (c :: rest) then
      cur.reverse :: splitORAux fuel ((c :: rest).drop 4) []
    else splitORAux fuel rest (c :: cur)

/-- Split a query string on ` OR `. -/
def splitOR (q : List Char) : List (List Char) := splitORAux q.length q []

/-- Parse one disjunct: a quoted phrase (tokenized content, non-empty) or a
bare alphanumeric term; otherwise a syntax error (`none`). -/
def parsePart (part : List Char) : Option FtsPhrase :=
  if part.length ≥ 2 ∧ part.head? = some '"' ∧ part.getLast? = some '"' ∧
      ((part.drop 1).dropLast).all (fun c => c ≠ '"') then
    let toks := ftsTokenize ((part.drop 1).dropLast)
    if toks.isEmpty then none else some toks
  else if !part.isEmpty && part.all isAlnumChar then some (ftsTokenize part)
  else none

/-- Parse a full `MATCH` expression into its list of disjunct phrases;
`none` models `sqlite3.OperationalError` on a malformed query. -/
def parseFtsQuery (q : List Char) : Option (List FtsPhrase) :=
  (splitOR q).mapM parsePart

/-! ## The indexed tables as read by search.py

`DocRow` models one document as present in both coupled views (the
`docs_fts` row joined with its `doc_metadata` row via the shared `filepath`
key); the serialized metadata columns hold `json.dumps` of the lists, and
`json.loads` recovers the lists. -/

structure DocRow where
  filepath : String
  title : String
  content : String
  sectionLabel : String
  description : String
  utility_classes : List String
  code_examples : List String
deriving DecidableEq, Repr

/-- The five `docs_fts` columns a `MATCH` query searches. -/
def rowColumns (r : DocRow) : List (List Char) :=
  [r.filepath.data, r.title.data, r.content.data, r.sectionLabel.data, r.description.data]

/-- A phrase matches a row when its token sequence occurs contiguously in
the tokenization of some single column. -/
def queryMatches (ast : List FtsPhrase) (r : DocRow) : Bool :=
  ast.any (fun ph => (rowColumns r).any (fun col => decide (ph <:+: ftsTokenize col)))

/-- SQL `LIMIT`: a negative limit means no limit in SQLite. -/
def sqlLimit (lim : Int) (l : List α) : List α :=
  if lim < 0 then l else l.take lim.toNat

/-- The error text stands for `sqlite3.OperationalError` raised by a
malformed `MATCH` expression. -/
def ftsErrorMsg : String := "fts5 query error"

/-- The shared `SELECT ... WHERE docs_fts MATCH ? ORDER BY bm25(docs_fts)
LIMIT ?` skeleton.  `rank` stands for the `ORDER BY bm25(docs_fts)` step, a
reordering of the matching rows whose exact scores no claim depends on. -/
def ftsSelect (rows : List DocRow) (q : String) (lim : Int)
    (rank : List DocRow → List DocRow) : Except String (List DocRow) :=
  match parseFtsQuery q.data with
  | none => Except.error ftsErrorMsg
  | some ast => Except.ok (sqlLimit lim (rank (rows.filter (queryMatches ast))))

/-! ## search.py -/

structure SearchResult where
  file : String
  title : String
  sectionLabel : String
  description : String
deriving DecidableEq, Repr

def mkSearchResult (r : DocRow) : SearchResult :=
  ⟨r.filepath, r.title, r.sectionLabel, r.description⟩

/-- `search(db_path, query, limit)` of search.py: the FTS query, with
`except sqlite3.OperationalError` translated into an empty result list. -/
def search (rows : List DocRow) (query : String) (limit : Int)
    (rank : List DocRow → List DocRow) : List SearchResult :=
  match ftsSelect rows query limit rank with
  | Except.error _ => []
  | Except.ok rs => rs.map mkSearchResult

structure ClassResult where
  file : String
  title : String
  sectionLabel : String
  utility_class : String
deriving DecidableEq, Repr

/-- The `LIKE` pattern `'%"{class_name}"%'` of `find_utility_class`. -/
def classLikePattern (class_name : String) : List Char :=
  '%' :: '"' :: (class_name.data ++ '"' :: ['%'])

/-- `find_utility_class(db_path, class_name)` of search.py: SQL `LIKE`
prefilter over the serialized `utility_classes` column, then the exact
(case-sensitive) membership test on the deserialized list. -/
def find_utility_class (rows : List DocRow) (class_name : String) :
    List ClassResult :=
  (rows.filter
      (fun r => likeCore (classLikePattern class_name) (jsonDumpsList r.utility_classes))).foldl
    (fun acc r =>
      if class_name ∈ r.utility_classes then
        acc ++ [⟨r.filepath, r.title, r.sectionLabel, class_name⟩]
      else acc) []

structure FullDoc where
  file : String
  title : String
  sectionLabel : String
  description : String
  content : String
  utility_classes : List String
  code_examples : List String
deriving DecidableEq, Repr

def mkFullDoc (r : DocRow) : FullDoc :=
  ⟨r.filepath, r.title, r.sectionLabel, r.description, r.content,
   r.utility_classes, r.code_examples⟩

/-- The `LIKE` pattern `'%/{slug}.mdx'` of `get_doc_by_slug`. -/
def slugPattern (slug : String) : List Char :=
  '%' :: '/' :: (slug.data ++ ['.', 'm', 'd', 'x'])

/-- `get_doc_by_slug(db_path, slug)` of search.py: the first row (in the
store's enumeration order, `LIMIT 1` without `ORDER BY`) whose `filepath`
matches `LIKE '%/{slug}.mdx'`, or `None`. -/
def get_doc_by_slug (rows : List DocRow) (slug : String) : Option FullDoc :=
  ((rows.filter (fun r => likeCore (slugPattern slug) r.filepath.data)).head?).map
    mkFullDoc

structure ExampleResult where
  file : String
  title : String
  sectionLabel : String
  code_examples : List String
deriving DecidableEq, Repr

def mkExampleResult (r : DocRow) : ExampleResult :=
  ⟨r.filepath, r.title, r.sectionLabel, r.code_examples⟩

/-- `get_code_examples(db_path, query, limit)` of search.py: FTS query
joined with the metadata view, restricted to rows whose serialized
`code_examples` column differs from `'[]'`.  The source has NO
`except sqlite3.OperationalError` clause here, so a malformed query
propagates to the caller (the `Except.error` branch). -/
def get_code_examples (rows : List DocRow) (query : String) (limit : Int)
    (rank : List DocRow → List DocRow) : Except String (List ExampleResult) :=
  match parseFtsQuery query.data with
  | none => Except.error ftsErrorMsg
  | some ast =>
    Except.ok
      ((sqlLimit limit
          (rank (rows.filter
            (fun r => queryMatches ast r &&
              decide (jsonDumpsList r.code_examples ≠ ['[', ']']))))).foldl
        (fun acc r =>
          if r.code_examples ≠ [] then acc ++ [mkExampleResult r] else acc) [])

structure VariantResult where
  file : String
  title : String
  sectionLabel : String
  description : String
  variant_type : String
deriving DecidableEq, Repr

def mkVariantResult (v : String) (r : DocRow) : VariantResult :=
  ⟨r.filepath, r.title, r.sectionLabel, r.description, v⟩

/-- The derived query of `search_variants`: `' OR '.join` of the five
patterns built from the variant name. -/
def variantQuery (variant_type : String) : String :=
  String.intercalate " OR "
    ["\"" ++ variant_type ++ ":\"",
     variant_type,
     "\"" ++ variant_type ++ " state\"",
     "\"" ++ variant_type ++ " variant\"",
     "\"" ++ variant_type ++ " modifier\""]

/-- `search_variants(db_path, variant_type, limit)` of search.py: the same
FTS pipeline as `search` run on the derived query, each result tagged with
the variant name; `except sqlite3.OperationalError` yields `[]`. -/
def search_variants (rows : List DocRow) (variant_type : String) (limit : Int)
    (rank : List DocRow → List DocRow) : List VariantResult :=
  match ftsSelect rows (variantQuery variant_type) limit rank with
  | Except.error _ => []
  | Except.ok rs => rs.map (mkVariantResult variant_type)

/-! ## server.py — limit clamping and the no-results fallback -/

/-- A tool's return payload: either the result list, or the one-element
"no results" message payload the server substitutes for an empty list. -/
inductive ToolOutput (α : Type) where
  | results : List α → ToolOutput α
  | noResults : String → ToolOutput α
deriving DecidableEq, Repr

/-- Number of elements in the returned payload (the fallback payload is a
single message dictionary). -/
def toolCount : ToolOutput α → Nat
  | ToolOutput.results l => l.length
  | ToolOutput.noResults _ => 1

/-- `limit = min(max(1, limit), maxLimit)` of server.py. -/
def clampLimit (maxLimit : Int) (limit : Int) : Int :=
  min (max 1 limit) maxLimit

/-- `search_docs(query, limit)` of server.py: clamp into `[1, 50]`, run
`search`, fall back to the message payload when empty. -/
def search_docs (rows : List DocRow) (query : String) (limit : Int)
    (rank : List DocRow → List DocRow) : ToolOutput SearchResult :=
  if (search rows query (clampLimit 50 limit) rank).isEmpty then
    ToolOutput.noResults ("No results found for query: " ++ query)
  else ToolOutput.results (search rows query (clampLimit 50 limit) rank)

/-- `get_examples(query, limit)` of server.py: clamp into `[1, 10]`, run
`get_code_examples` (whose engine errors propagate), fall back to the
message payload when empty. -/
def get_examples (rows : List DocRow) (query : String) (limit : Int)
    (rank : List DocRow → List DocRow) :
    Except String (ToolOutput ExampleResult) :=
  match get_code_examples rows query (clampLimit 10 limit) rank with
  | Except.error e => Except.error e
  | Except.ok results =>
    Except.ok
      (if results.isEmpty then
        ToolOutput.noResults ("No code examples found for query: " ++ query)
      else ToolOutput.results results)

/-- Payload size of an `Except`-wrapped tool output (an error carries no
result rows). -/
def exceptToolCount : Except String (ToolOutput α) → Nat
  | Except.error _ => 0
  | Except.ok t => toolCount t

/-- `search_by_variant(variant, limit)` of server.py: clamp into `[1, 20]`,
run `search_variants`, fall back to the message payload when empty. -/
def search_by_variant (rows : List DocRow) (variant : String) (limit : Int)
    (rank : List DocRow → List DocRow) : ToolOutput VariantResult :=
  if (search_variants rows variant (clampLimit 20 limit) rank).isEmpty then
    ToolOutput.noResults ("No documentation found for variant: " ++ variant)
  else ToolOutput.results (search_variants rows variant (clampLimit 20 limit) rank)

/-! ## indexer.py — the two persisted tables and the rebuild

The parse results of the enumerated `.mdx` files are passed in as
`List (Option ParsedDoc)`: `none` is a file `parse_mdx_file` returned
`None` for (skipped), `some d` a successfully parsed document. -/

/-- `parse_mdx_file` output (the dictionary the indexer consumes). -/
structure ParsedDoc where
  filepath : String
  title : String
  description : String
  content : String
  sectionLabel : String
  utility_classes : List String
  code_examples : List String
deriving DecidableEq, Repr

/-- One row of the `docs_fts` virtual table. -/
structure FtsTableRow where
  filepath : String
  title : String
  content : String
  sectionLabel : String
  description : String
deriving DecidableEq, Repr

/-- One row of the `doc_metadata` table; the list-valued columns hold the
`json.dumps` serialization (the `last_updated` timestamp column plays no
role in any claim and is omitted). -/
structure MetaTableRow where
  filepath : String
  title : String
  sectionLabel : String
  utility_classes : List Char
  code_examples : List Char
deriving DecidableEq, Repr

/-- The persisted database state: both coupled views. -/
structure Db where
  docs_fts : List FtsTableRow
  doc_metadata : List MetaTableRow
deriving DecidableEq, Repr

/-- Plain `INSERT` into `docs_fts`. -/
def insertFtsRow (t : List FtsTableRow) (d : ParsedDoc) : List FtsTableRow :=
  t ++ [⟨d.filepath, d.title, d.content, d.sectionLabel, d.description⟩]

/-- The `doc_metadata` row written for a parsed document. -/
def metaRowOf (d : ParsedDoc) : MetaTableRow :=
  ⟨d.filepath, d.title, d.sectionLabel,
   jsonDumpsList d.utility_classes, jsonDumpsList d.code_examples⟩

/-- `INSERT OR REPLACE` on the `filepath`-unique `doc_metadata` table:
delete any row with the conflicting key, append the new row. -/
def insertOrReplaceMeta (t : List MetaTableRow) (d : ParsedDoc) :
    List MetaTableRow :=
  t.filter (fun r => r.filepath ≠ d.filepath) ++ [metaRowOf d]

/-- One iteration of the indexing loop: a skipped file leaves the state
unchanged, a parsed document is inserted into both tables and counted. -/
def indexStep (st : Db × Nat) : Option ParsedDoc → Db × Nat
  | none => st
  | some d =>
    (⟨insertFtsRow st.1.docs_fts d, insertOrReplaceMeta st.1.doc_metadata d⟩,
     st.2 + 1)

/-- `index_documentation(repo_path, db_path)`: when the docs path is
missing, return 0 without touching the database; otherwise DELETE all rows
of both tables first, then insert each successfully parsed document into
both tables, counting them. -/
def index_documentation (docsPathExists : Bool)
    (files : List (Option ParsedDoc)) (db : Db) : Db × Nat :=
  if docsPathExists then files.foldl indexStep (⟨[], []⟩, 0)
  else (db, 0)

/-- The two views agree on their key set: every `filepath` present in one
is present in the other. -/
def sameKeySets (db : Db) : Prop :=
  ∀ p, p ∈ db.docs_fts.map FtsTableRow.filepath ↔
    p ∈ db.doc_metadata.map MetaTableRow.filepath

/-- `rebuild_index(repo_path, db_path)`: success iff at least one document
was indexed. -/
def rebuild_index (docsPathExists : Bool) (files : List (Option ParsedDoc))
    (db : Db) : Db × Bool :=
  let res := index_documentation docsPathExists files db
  (res.1, decide (0 < res.2))

/-! ## Concrete instances used by counterexamples and witnesses -/

/-- A non-empty prior index generation (one indexed document). -/
def dbPrior : Db :=
  ⟨[⟨"repo/src/pages/docs/flex.mdx", "Flex", "Utilities for flex.", "Core", "d"⟩],
   [⟨"repo/src/pages/docs/flex.mdx", "Flex", "Core",
     jsonDumpsList ["flex"], jsonDumpsList []⟩]⟩

/-- A store row whose only identifier token contains a backslash: its JSON
serialization escapes the backslash, so the `LIKE` prefilter of
`find_utility_class` cannot see the quoted token. -/
def backslashRow : DocRow :=
  ⟨"repo/src/pages/docs/content.mdx", "Content", "", "Core", "", ["a\\b"], []⟩

/-- A document whose body consists solely of the literal text
`hover:bg-blue-500`. -/
def hoverDoc : DocRow :=
  ⟨"p", "", "hover:bg-blue-500", "", "", [], []⟩

/-- A store parsed from a document containing `class="flex-1 text-center"`. -/
def flexRow : DocRow :=
  ⟨"repo/src/pages/docs/flex-1.mdx", "Flex", "", "Core", "",
   extract_utility_classes "<div class=\"flex-1 text-center\">", []⟩

/-- A query-token character the JSON encoder serializes verbatim: printable
ASCII other than the double quote and the backslash. -/
def plainChar (c : Char) : Bool :=
  decide (32 ≤ c.toNat ∧ c.toNat ≤ 126 ∧ c.toNat ≠ 34 ∧ c.toNat ≠ 92)

/-- A parsed document used to exercise a successful rebuild. -/
def parsedFlexDoc : ParsedDoc :=
  ⟨"repo/src/pages/docs/flex.mdx", "Flex", "d", "Utilities for flex.", "Core",
   ["flex"], []⟩

/-- A stored row whose path differs from the queried slug only in ASCII
letter case. -/
def gridRow : DocRow := ⟨"a/docs/Grid.mdx", "Grid", "", "Core", "", [], []⟩

/-! # Theorems -/

/-! ## Generic helper lemmas -/

/-- A fold that conditionally appends is a filter followed by a map. -/
theorem foldl_append_filter_map {α β : Type} (p : α → Prop) [DecidablePred p]
    (f : α → β) :
    ∀ (l : List α) (acc : List β),
      l.foldl (fun a x => if p x then a ++ [f x] else a) acc
        = acc ++ (l.filter (fun x => decide (p x))).map f
  | [], acc => by simp
  | x :: l, acc => by
    by_cases h : p x <;>
      simp [List.foldl_cons, List.filter_cons, h,
        foldl_append_filter_map p f l]

/-! ## C3 helper lemmas: clamping and LIMIT -/

theorem clampLimit_bounds (m limit : Int) (hm : 1 ≤ m) :
    1 ≤ clampLimit m limit ∧ clampLimit m limit ≤ m :=
  ⟨le_min (le_max_left 1 limit) hm, min_le_right _ _⟩

theorem sqlLimit_length_le {α : Type} (limit : Int) (h : 0 ≤ limit)
    (l : List α) : (sqlLimit limit l).length ≤ limit.toNat := by
  unfold sqlLimit
  rw [if_neg (by omega)]
  simp [List.length_take]

theorem search_length_le (rows : List DocRow) (q : String) (limit : Int)
    (h : 0 ≤ limit) (rank : List DocRow → List DocRow) :
    (search rows q limit rank).length ≤ limit.toNat := by
  unfold search ftsSelect
  cases parseFtsQuery q.data with
  | none => simp
  | some ast => simpa using sqlLimit_length_le limit h _

theorem search_variants_length_le (rows : List DocRow) (v : String)
    (limit : Int) (h : 0 ≤ limit) (rank : List DocRow → List DocRow) :
    (search_variants rows v limit rank).length ≤ limit.toNat := by
  unfold search_variants ftsSelect
  cases parseFtsQuery (variantQuery v).data with
  | none => simp
  | some ast => simpa using sqlLimit_length_le limit h _

theorem get_code_examples_length_le (rows : List DocRow) (q : String)
    (limit : Int) (h : 0 ≤ limit) (rank : List DocRow → List DocRow)
    (out : List ExampleResult)
    (hout : get_code_examples rows q limit rank = Except.ok out) :
    out.length ≤ limit.toNat := by
  unfold get_code_examples at hout
  cases hq : parseFtsQuery q.data with
  | none => rw [hq] at hout; exact absurd hout (by simp)
  | some ast =>
    rw [hq] at hout
    simp only [Except.ok.injEq] at hout
    rw [← hout, foldl_append_filter_map]
    simp only [List.nil_append, List.length_map]
    exact le_trans (List.length_filter_le _ _) (sqlLimit_length_le limit h _)

/-- Payload size of the empty-fallback wrapper is bounded by any positive
bound that bounds the raw list. -/
theorem toolCount_fallback_le {α : Type} (l : List α) (m : String) (k : Nat)
    (hk : 1 ≤ k) (hl : l.length ≤ k) :
    toolCount (if l.isEmpty then (ToolOutput.noResults m : ToolOutput α)
      else ToolOutput.results l) ≤ k := by
  by_cases hE : l.isEmpty <;> simp [hE, toolCount] <;> omega

/-- C1: the spec requires that a rebuild parsing zero documents leave a
prior, non-empty index generation intact, the refresh merely reporting
failure.  The code instead clears both tables before parsing
(indexer.py lines 86-88) and commits, so with the docs directory present
but containing no parseable file, the one-entry prior store `dbPrior` is
wiped even though `rebuild_index` reports failure: the persisted entry set
after the rebuild is empty, not equal to the prior state. -/
theorem c1_zero_doc_rebuild_destroys_prior_index :
    rebuild_index true [] dbPrior = (⟨[], []⟩, false) ∧
    dbPrior.doc_metadata ≠ [] ∧
    (rebuild_index true [] dbPrior).1 ≠ dbPrior ∧
    rebuild_index false [] dbPrior = (dbPrior, false) := by
  refine ⟨rfl, by decide, by decide, rfl⟩

/-- C2 (counterexample): the claim says a malformed full-text query is
caught and translated into an empty result list by all three query-style
operations.  For `get_code_examples` it is not: the lone-double-quote query
is malformed (the engine raises), and the error propagates to the caller
instead of becoming `[]`. -/
theorem c2_counterexample :
    parseFtsQuery "\"".data = none ∧
    get_code_examples [] "\"" 5 id = Except.error ftsErrorMsg :=
  ⟨rfl, rfl⟩

/-- C2 (amended): `search` and `search_variants` catch the engine's
query-syntax error and return an empty list; `get_code_examples` has no
handler and propagates the error to its caller. -/
theorem c2_malformed_query_handling (rows : List DocRow) (limit : Int)
    (rank : List DocRow → List DocRow) :
    (∀ q : String, parseFtsQuery q.data = none →
      search rows q limit rank = []) ∧
    (∀ v : String, parseFtsQuery (variantQuery v).data = none →
      search_variants rows v limit rank = []) ∧
    (∀ q : String, parseFtsQuery q.data = none →
      get_code_examples rows q limit rank = Except.error ftsErrorMsg) := by
  refine ⟨fun q h => ?_, fun v h => ?_, fun q h => ?_⟩ <;>
    simp [search, search_variants, get_code_examples, ftsSelect, h]

theorem c2_witness :
    parseFtsQuery (variantQuery "group-hover").data = none ∧
    search [hoverDoc] "\"" 7 id = [] ∧
    search_variants [hoverDoc] "group-hover" 7 id = [] := by
  have h := c2_malformed_query_handling [hoverDoc] 7 id
  exact ⟨by decide, h.1 "\"" (by decide), h.2.1 "group-hover" (by decide)⟩

/-- C3: each of the three exposed operations clamps the caller-supplied
limit into its configured range (`[1, 50]`, `[1, 10]`, `[1, 20]`) before
use — for every integer, including zero, negatives and values above the
ceiling — and the returned payload never holds more entries than the
clamped limit. -/
theorem c3_limits_clamped (rows : List DocRow) (q : String) (limit : Int)
    (rank : List DocRow → List DocRow) :
    (1 ≤ clampLimit 50 limit ∧ clampLimit 50 limit ≤ 50 ∧
      toolCount (search_docs rows q limit rank) ≤ (clampLimit 50 limit).toNat) ∧
    (1 ≤ clampLimit 10 limit ∧ clampLimit 10 limit ≤ 10 ∧
      exceptToolCount (get_examples rows q limit rank) ≤ (clampLimit 10 limit).toNat) ∧
    (1 ≤ clampLimit 20 limit ∧ clampLimit 20 limit ≤ 20 ∧
      toolCount (search_by_variant rows q limit rank) ≤ (clampLimit 20 limit).toNat) := by
  obtain ⟨h50a, h50b⟩ := clampLimit_bounds 50 limit (by omega)
  obtain ⟨h10a, h10b⟩ := clampLimit_bounds 10 limit (by omega)
  obtain ⟨h20a, h20b⟩ := clampLimit_bounds 20 limit (by omega)
  refine ⟨⟨h50a, h50b, ?_⟩, ⟨h10a, h10b, ?_⟩, ⟨h20a, h20b, ?_⟩⟩
  · exact toolCount_fallback_le _ _ _ (by omega)
      (search_length_le rows q (clampLimit 50 limit) (by omega) rank)
  · unfold get_examples
    cases hc : get_code_examples rows q (clampLimit 10 limit) rank with
    | error e => simp [exceptToolCount]
    | ok results =>
      have hlen := get_code_examples_length_le rows q (clampLimit 10 limit)
        (by omega) rank results hc
      simpa [exceptToolCount] using
        toolCount_fallback_le results ("No code examples found for query: " ++ q)
          (clampLimit 10 limit).toNat (by omega) hlen
  · exact toolCount_fallback_le _ _ _ (by omega)
      (search_variants_length_le rows q (clampLimit 20 limit) (by omega) rank)

/-! ## C4: the two views agree on keys after a successful rebuild -/

theorem indexStep_keys (st : Db × Nat) (f : Option ParsedDoc)
    (h : sameKeySets st.1) : sameKeySets (indexStep st f).1 := by
  cases f with
  | none => exact h
  | some d =>
    intro p
    have hp := h p
    simp only [indexStep, insertFtsRow, insertOrReplaceMeta, metaRowOf,
      List.map_append, List.mem_append, List.map_cons, List.map_nil,
      List.mem_singleton, List.mem_map, List.mem_filter] at hp ⊢
    by_cases hpd : p = d.filepath
    · simp [hpd]
    · constructor
      · rintro (h1 | h1)
        · obtain ⟨r, hr, hrp⟩ := hp.mp h1
          exact Or.inl ⟨r, ⟨hr, decide_eq_true (fun hc => hpd (hrp.symm.trans hc))⟩, hrp⟩
        · exact absurd h1 hpd
      · rintro (h1 | h1)
        · obtain ⟨r, ⟨hr, _⟩, hrp⟩ := h1
          exact Or.inl (hp.mpr ⟨r, hr, hrp⟩)
        · exact absurd h1 hpd

theorem foldl_indexStep_keys :
    ∀ (files : List (Option ParsedDoc)) (st : Db × Nat),
      sameKeySets st.1 → sameKeySets (files.foldl indexStep st).1
  | [], _, h => h
  | f :: files, st, h =>
    foldl_indexStep_keys files (indexStep st f) (indexStep_keys st f h)

/-- C4: after every successful rebuild, the full-text view (`docs_fts`) and
the structured metadata view (`doc_metadata`) agree on their key set: every
`filepath` present in one view is present in the other. -/
theorem c4_views_share_keys (docsPathExists : Bool)
    (files : List (Option ParsedDoc)) (db : Db)
    (hs : (rebuild_index docsPathExists files db).2 = true) :
    sameKeySets (rebuild_index docsPathExists files db).1 := by
  cases docsPathExists with
  | false =>
    exfalso
    revert hs
    simp [rebuild_index, index_documentation]
  | true =>
    have heq : (rebuild_index true files db).1
        = (files.foldl indexStep ((⟨⟨[], []⟩, 0⟩ : Db × Nat))).1 := by
      simp [rebuild_index, index_documentation]
    rw [heq]
    exact foldl_indexStep_keys files _ (fun p => by simp [sameKeySets])

theorem c4_witness :
    ("repo/src/pages/docs/flex.mdx"
        ∈ (rebuild_index true [some parsedFlexDoc] dbPrior).1.docs_fts.map
            FtsTableRow.filepath) ↔
      ("repo/src/pages/docs/flex.mdx"
        ∈ (rebuild_index true [some parsedFlexDoc] dbPrior).1.doc_metadata.map
            MetaTableRow.filepath) :=
  c4_views_share_keys true [some parsedFlexDoc] dbPrior (by decide) _

/-! ## C5: identifier extraction -/

theorem mem_addTok (acc : List (List Char)) (t x : List Char) :
    x ∈ addTok acc t ↔ x = t ∨ x ∈ acc := by
  unfold addTok
  split
  · rename_i h
    constructor
    · exact Or.inr
    · rintro (rfl | hx) <;> assumption
  · simp [List.mem_cons]

theorem nodup_addTok (acc : List (List Char)) (t : List Char)
    (h : acc.Nodup) : (addTok acc t).Nodup := by
  unfold addTok
  split
  · exact h
  · exact List.nodup_cons.mpr ⟨by assumption, h⟩

theorem mem_utilityTokenFold :
    ∀ (toks acc : List (List Char)) (x : List Char),
      x ∈ utilityTokenFold acc toks ↔
        x ∈ acc ∨ (x ∈ toks ∧ keepTok x = true)
  | [], acc, x => by simp [utilityTokenFold]
  | c :: toks, acc, x => by
    have hstep : utilityTokenFold acc (c :: toks)
        = utilityTokenFold (if keepTok c then addTok acc c else acc) toks := rfl
    rw [hstep, mem_utilityTokenFold toks _ x]
    by_cases h : keepTok c
    · simp only [if_pos h, mem_addTok]
      constructor
      · rintro ((rfl | hx) | hx)
        · exact Or.inr ⟨List.mem_cons_self _ _, h⟩
        · exact Or.inl hx
        · exact Or.inr ⟨List.mem_cons_of_mem _ hx.1, hx.2⟩
      · rintro (hx | ⟨hmem, hk⟩)
        · exact Or.inl (Or.inr hx)
        · rcases List.mem_cons.mp hmem with rfl | hx
          · exact Or.inl (Or.inl rfl)
          · exact Or.inr ⟨hx, hk⟩
    · simp only [if_neg h]
      constructor
      · rintro (hx | hx)
        · exact Or.inl hx
        · exact Or.inr ⟨List.mem_cons_of_mem _ hx.1, hx.2⟩
      · rintro (hx | ⟨hmem, hk⟩)
        · exact Or.inl hx
        · rcases List.mem_cons.mp hmem with rfl | hx
          · exact absurd hk (by simpa using h)
          · exact Or.inr ⟨hx, hk⟩

theorem nodup_utilityTokenFold :
    ∀ (toks acc : List (List Char)), acc.Nodup → (utilityTokenFold acc toks).Nodup
  | [], _, h => h
  | c :: toks, acc, h => by
    have hstep : utilityTokenFold acc (c :: toks)
        = utilityTokenFold (if keepTok c then addTok acc c else acc) toks := rfl
    rw [hstep]
    apply nodup_utilityTokenFold toks
    split
    · exact nodup_addTok acc c h
    · exact h

theorem mem_classesFold :
    ∀ (values : List (List Char)) (acc : List (List Char)) (x : List Char),
      x ∈ values.foldl (fun a v => utilityTokenFold a (pySplit v)) acc ↔
        x ∈ acc ∨ ∃ v, v ∈ values ∧ x ∈ pySplit v ∧ keepTok x = true
  | [], acc, x => by simp
  | v :: values, acc, x => by
    rw [List.foldl_cons, mem_classesFold values _ x, mem_utilityTokenFold]
    constructor
    · rintro ((hx | ⟨hv, hk⟩) | ⟨w, hw, hxw, hk⟩)
      · exact Or.inl hx
      · exact Or.inr ⟨v, List.mem_cons_self _ _, hv, hk⟩
      · exact Or.inr ⟨w, List.mem_cons_of_mem _ hw, hxw, hk⟩
    · rintro (hx | ⟨w, hw, hxw, hk⟩)
      · exact Or.inl (Or.inl hx)
      · rcases List.mem_cons.mp hw with rfl | hw'
        · exact Or.inl (Or.inr ⟨hxw, hk⟩)
        · exact Or.inr ⟨w, hw', hxw, hk⟩

theorem nodup_classesFold :
    ∀ (values : List (List Char)) (acc : List (List Char)),
      acc.Nodup → (values.foldl (fun a v => utilityTokenFold a (pySplit v)) acc).Nodup
  | [], _, h => h
  | v :: values, acc, h => by
    rw [List.foldl_cons]
    exact nodup_classesFold values _ (nodup_utilityTokenFold _ _ h)

/-- C5: identifier extraction returns exactly the whitespace-split tokens of
the captured `class="..."` / `className="..."` attribute values that pass
the filter (non-empty, not starting with a brace, not starting with `...`),
as a duplicate-free set, and the result never contains a token starting
with a brace or with `...`. -/
theorem c5_identifier_extraction (content : String) :
    (extract_utility_classes content).Nodup ∧
    (∀ t, t ∈ extractClassesCore content.data ↔
      ∃ v, v ∈ classAttrValues content.data ∧ t ∈ pySplit v ∧ keepTok t = true) ∧
    (∀ t, t ∈ extractClassesCore content.data →
      [braceChar].isPrefixOf t = false ∧ ['.', '.', '.'].isPrefixOf t = false) := by
  refine ⟨?_, ?_, ?_⟩
  · exact (nodup_classesFold _ [] List.nodup_nil).map
      (fun a b hab => by injection hab)
  · intro t
    rw [extractClassesCore, mem_classesFold]
    simp
  · intro t ht
    rw [extractClassesCore, mem_classesFold] at ht
    rcases ht with ht | ⟨v, _, _, hk⟩
    · simp at ht
    · unfold keepTok at hk
      simp only [Bool.and_eq_true, Bool.not_eq_true'] at hk
      exact ⟨hk.1.2, hk.2⟩

theorem c5_witness :
    [braceChar].isPrefixOf "flex-1".data = false ∧
    ['.', '.', '.'].isPrefixOf "flex-1".data = false :=
  (c5_identifier_extraction "<div class=\"flex-1 text-center\">").2.2
    "flex-1".data (by decide)

/-! ## C6: code-sample extraction -/

theorem infix_dropWhile {α : Type} (p : α → Bool) (c : α) (t : List α)
    (hc : p c = false) :
    ∀ l : List α, (c :: t) <:+: l → (c :: t) <:+: l.dropWhile p
  | [], h => by rw [List.infix_nil] at h; exact absurd h (by simp)
  | a :: l, h => by
    rcases List.infix_cons_iff.mp h with hpre | hinf
    · obtain ⟨r, hr⟩ := hpre
      have hca : c = a := by
        rw [List.cons_append] at hr
        injection hr
      subst hca
      simpa [List.dropWhile_cons, hc] using h
    · have ih := infix_dropWhile p c t hc l hinf
      by_cases hpa : p a
      · simpa [List.dropWhile_cons, hpa] using ih
      · simp only [List.dropWhile_cons, hpa, if_neg, Bool.false_eq_true,
          ite_false]
        exact hinf.trans (List.suffix_cons a l).isInfix

theorem classNat_eq : classNat = 99 :: [108, 97, 115, 115] := by decide

theorem infix_natStrip (x : List Nat) (h : classNat <:+: x) :
    classNat <:+: natStrip x := by
  rw [classNat_eq] at h ⊢
  unfold natStrip
  have h1 : (99 :: [108, 97, 115, 115]) <:+: x.dropWhile natIsSpace :=
    infix_dropWhile natIsSpace 99 _ (by decide) x h
  have h2 := List.reverse_infix.mpr h1
  rw [(by decide : (99 :: [108, 97, 115, 115] : List Nat).reverse
      = 115 :: [115, 97, 108, 99])] at h2
  have h3 := infix_dropWhile natIsSpace 115 _ (by decide) _ h2
  have h4 := List.reverse_infix.mpr h3
  rw [(by decide : (115 :: [115, 97, 108, 99] : List Nat).reverse
      = 99 :: [108, 97, 115, 115])] at h4
  exact h4

theorem natIsSpace_lower (c : Char) :
    natIsSpace (charLowerNat c) = pyIsSpace c := by
  rw [Bool.eq_iff_iff]
  simp only [natIsSpace, pyIsSpace, charLowerNat, Bool.or_eq_true, beq_iff_eq]
  split <;> omega

theorem map_lower_pyStrip (l : List Char) :
    (pyStrip l).map charLowerNat = natStrip (l.map charLowerNat) := by
  have hps : (natIsSpace ∘ charLowerNat) = pyIsSpace := funext natIsSpace_lower
  unfold pyStrip natStrip
  rw [List.dropWhile_map, hps, ← List.map_reverse, List.dropWhile_map, hps,
    ← List.map_reverse]

theorem extractExamplesCore_eq (l : List Char) :
    extractExamplesCore l = ((codeBlocksList l).filter keepBlock).map pyStrip := by
  unfold extractExamplesCore
  rw [foldl_append_filter_map (fun code => keepBlock code = true) pyStrip]
  simp

/-- C6: code-sample extraction returns, in source order and without
deduplication, exactly the (stripped) fenced code blocks passing the
relevance filter, and every returned sample is non-empty and contains the
case-insensitive substring `class`. -/
theorem c6_code_sample_extraction (content : String) :
    extract_code_examples content
      = ((codeBlocksList content.data).filter keepBlock).map
          (fun c => String.mk (pyStrip c)) ∧
    ∀ b, b ∈ extractExamplesCore content.data →
      b ≠ [] ∧ classNat <:+: b.map charLowerNat := by
  constructor
  · unfold extract_code_examples
    rw [extractExamplesCore_eq, List.map_map]
    rfl
  · intro b hb
    rw [extractExamplesCore_eq] at hb
    obtain ⟨c, hc, rfl⟩ := List.mem_map.mp hb
    have hk := (List.mem_filter.mp hc).2
    unfold keepBlock at hk
    simp only [Bool.and_eq_true, decide_eq_true_eq, Bool.not_eq_true'] at hk
    obtain ⟨hcl, hne⟩ := hk
    refine ⟨?_, ?_⟩
    · intro hnil
      rw [hnil] at hne
      simp at hne
    · rw [map_lower_pyStrip]
      exact infix_natStrip _ hcl

theorem c6_witness :
    "<div class=\"x\">".data ≠ [] ∧
    classNat <:+: "<div class=\"x\">".data.map charLowerNat :=
  (c6_code_sample_extraction "```html\n<div class=\"x\">\n```").2
    "<div class=\"x\">".data (by decide)

/-! ## C7: section classification -/

/-- C7: `infer_section` is a total function of the path segments: when a
further non-final segment follows the first `docs` marker it is returned
hyphen-replaced and title-cased; when the marker is the second-to-last
segment the label is `Core`; when the marker is absent the label is
`General`. -/
theorem c7_infer_section (parts : List String) :
    (∀ i, parts.findIdx? (fun p => p == "docs") = some i →
      (i + 1 < parts.length - 1 →
        infer_section parts
          = String.mk (pyTitle (pyReplaceHyphen (parts.getD (i + 1) "").data))) ∧
      (i = parts.length - 2 → infer_section parts = "Core")) ∧
    (parts.findIdx? (fun p => p == "docs") = none →
      infer_section parts = "General") := by
  constructor
  · intro i hi
    constructor
    · intro hlt
      unfold infer_section
      rw [hi]
      simp [hlt]
    · intro he
      unfold infer_section
      rw [hi]
      have hnl : ¬(i + 1 < parts.length - 1) := by omega
      simp [hnl]
  · intro h
    unfold infer_section
    rw [h]

theorem c7_witness :
    infer_section ["src", "pages", "docs", "typography", "font-size.mdx"]
        = "Typography" ∧
    infer_section ["src", "pages", "docs", "flex.mdx"] = "Core" ∧
    infer_section ["a", "b.mdx"] = "General" := by
  refine ⟨?_, ?_, ?_⟩
  · exact (((c7_infer_section _).1 2 (by decide)).1 (by decide)).trans (by decide)
  · exact ((c7_infer_section _).1 2 (by decide)).2 (by decide)
  · exact (c7_infer_section _).2 (by decide)

/-! ## `LIKE` matcher lemmas (used by C8 and C10) -/

theorem likeFuel_irrel :
    ∀ (n₁ : Nat) (p t : List Char) (n₂ : Nat),
      p.length + t.length < n₁ → p.length + t.length < n₂ →
        likeFuel n₁ p t = likeFuel n₂ p t
  | 0, _, _, _, h₁, _ => absurd h₁ (by omega)
  | _ + 1, p, t, 0, _, h₂ => absurd h₂ (by omega)
  | n₁ + 1, [], t, n₂ + 1, _, _ => rfl
  | n₁ + 1, c :: p, t, n₂ + 1, h₁, h₂ => by
    simp only [List.length_cons] at h₁ h₂
    simp only [likeFuel]
    by_cases hc : c = '%'
    · rw [if_pos hc, if_pos hc,
        likeFuel_irrel n₁ p t n₂ (by omega) (by omega)]
      cases t with
      | nil => rfl
      | cons d t' =>
        simp only [List.length_cons] at h₁ h₂
        have e := likeFuel_irrel n₁ (c :: p) t' n₂
          (by simp only [List.length_cons]; omega)
          (by simp only [List.length_cons]; omega)
        simp only [e]
    · rw [if_neg hc, if_neg hc]
      cases t with
      | nil => rfl
      | cons d t' =>
        simp only [List.length_cons] at h₁ h₂
        have e := likeFuel_irrel n₁ p t' n₂ (by omega) (by omega)
        simp only [e]

theorem likeCore_fuel (n : Nat) (p t : List Char)
    (h : p.length + t.length < n) : likeFuel n p t = likeCore p t :=
  likeFuel_irrel n p t (p.length + t.length + 1) h (by omega)

theorem likeCore_nil (t : List Char) : likeCore [] t = t.isEmpty := rfl

theorem likeCore_pct (p t : List Char) :
    likeCore ('%' :: p) t
      = (likeCore p t ||
          (match t with
           | [] => false
           | _ :: t' => likeCore ('%' :: p) t')) := by
  have hstep : likeCore ('%' :: p) t
      = (likeFuel (('%' :: p).length + t.length) p t ||
          (match t with
           | [] => false
           | _ :: t' => likeFuel (('%' :: p).length + t.length) ('%' :: p) t')) := rfl
  rw [hstep,
    likeCore_fuel _ p t (by simp only [List.length_cons]; omega)]
  cases t with
  | nil => rfl
  | cons d t' =>
    have e := likeCore_fuel (('%' :: p).length + (d :: t').length) ('%' :: p) t'
      (by simp only [List.length_cons]; omega)
    simp only [e]

theorem likeCore_cons (c : Char) (p t : List Char) (hc : c ≠ '%') :
    likeCore (c :: p) t
      = (match t with
         | [] => false
         | d :: t' =>
           (c == '_' || charLowerNat c == charLowerNat d) && likeCore p t') := by
  have hstep : likeCore (c :: p) t
      = (if c = '%' then
          likeFuel ((c :: p).length + t.length) p t ||
            (match t with
             | [] => false
             | _ :: t' => likeFuel ((c :: p).length + t.length) (c :: p) t')
        else
          match t with
          | [] => false
          | d :: t' =>
            (c == '_' || charLowerNat c == charLowerNat d) &&
              likeFuel ((c :: p).length + t.length) p t') := rfl
  rw [hstep, if_neg hc]
  cases t with
  | nil => rfl
  | cons d t' =>
    have e := likeCore_fuel ((c :: p).length + (d :: t').length) p t'
      (by simp only [List.length_cons]; omega)
    simp only [e]

theorem like_pct_all : ∀ t : List Char, likeCore ['%'] t = true
  | [] => by rw [likeCore_pct]; simp [likeCore_nil]
  | c :: t => by
    have ih := like_pct_all t
    rw [likeCore_pct]
    simp [ih]

theorem like_pct_start (p t : List Char) (h : likeCore p t = true) :
    likeCore ('%' :: p) t = true := by
  rw [likeCore_pct]
  simp [h]

theorem like_pct_extend (p : List Char) :
    ∀ (u t : List Char), likeCore ('%' :: p) t = true →
      likeCore ('%' :: p) (u ++ t) = true
  | [], _, h => h
  | c :: u, t, h => by
    have ih := like_pct_extend p u t h
    rw [List.cons_append, likeCore_pct]
    simp [ih]

theorem like_caseEq_append :
    ∀ (s t p u : List Char), s.map charLowerNat = t.map charLowerNat →
      likeCore p u = true → likeCore (s ++ p) (t ++ u) = true
  | [], t, p, u, hc, h => by
    have ht : t = [] := by simpa using hc.symm
    subst ht
    simpa using h
  | c :: s, t, p, u, hc, h => by
    cases t with
    | nil => simp at hc
    | cons d t =>
      simp only [List.map_cons, List.cons.injEq] at hc
      obtain ⟨hcd, hst⟩ := hc
      have ih := like_caseEq_append s t p u hst h
      rw [List.cons_append, List.cons_append]
      by_cases hpc : c = '%'
      · subst hpc
        rw [likeCore_pct]
        simp only [Bool.or_eq_true]
        right
        rw [likeCore_pct]
        simp only [Bool.or_eq_true]
        exact Or.inl ih
      · rw [likeCore_cons c _ _ hpc]
        simp [ih, hcd]

theorem like_infix_match (needle text : List Char) (h : needle <:+: text) :
    likeCore ('%' :: (needle ++ ['%'])) text = true := by
  obtain ⟨u, v, rfl⟩ := h
  have hbase : likeCore (needle ++ ['%']) (needle ++ v) = true :=
    like_caseEq_append needle needle ['%'] v rfl (like_pct_all v)
  have hstart := like_pct_start _ _ hbase
  have hall := like_pct_extend (needle ++ ['%']) u (needle ++ v) hstart
  simpa [List.append_assoc] using hall

/-! ## C8: exact identifier lookup -/

theorem jsonEscapeChar_plain (c : Char) (h : plainChar c = true) :
    jsonEscapeChar c = [c] := by
  unfold plainChar at h
  simp only [decide_eq_true_eq] at h
  unfold jsonEscapeChar
  repeat rw [if_neg (by omega)]

theorem flatten_escape_plain :
    ∀ l : List Char, (∀ c ∈ l, plainChar c = true) →
      (l.map jsonEscapeChar).flatten = l
  | [], _ => rfl
  | c :: l, h => by
    simp only [List.map_cons, List.flatten_cons]
    rw [jsonEscapeChar_plain c (h c (List.mem_cons_self _ _)),
      flatten_escape_plain l (fun x hx => h x (List.mem_cons_of_mem _ hx))]
    rfl

theorem jsonString_plain (s : String) (h : ∀ c ∈ s.data, plainChar c = true) :
    jsonString s = '"' :: (s.data ++ ['"']) := by
  unfold jsonString
  rw [flatten_escape_plain s.data h]

theorem jsonString_infix_body :
    ∀ (xs : List String) (t : String), t ∈ xs →
      jsonString t <:+: jsonListBody xs
  | [], t, h => absurd h (List.not_mem_nil t)
  | [x], t, h => by
    rcases List.mem_singleton.mp h with rfl
    exact List.infix_refl _
  | x :: y :: xs, t, h => by
    rcases List.mem_cons.mp h with rfl | h'
    · exact (List.prefix_append _ _).isInfix
    · obtain ⟨m, n, hmn⟩ := jsonString_infix_body (y :: xs) t h'
      refine ⟨jsonString x ++ ',' :: ' ' :: m, n, ?_⟩
      have hbody : jsonListBody (x :: y :: xs)
          = jsonString x ++ ',' :: ' ' :: jsonListBody (y :: xs) := rfl
      rw [hbody, ← hmn]
      simp

theorem jsonString_infix_dumps (xs : List String) (t : String) (h : t ∈ xs) :
    jsonString t <:+: jsonDumpsList xs := by
  obtain ⟨m, n, hmn⟩ := jsonString_infix_body xs t h
  exact ⟨'[' :: m, n ++ [']'], by unfold jsonDumpsList; rw [← hmn]; simp⟩

theorem classLike_complete (r : List String) (t : String)
    (hmem : t ∈ r) (hp : ∀ c ∈ t.data, plainChar c = true) :
    likeCore (classLikePattern t) (jsonDumpsList r) = true := by
  have hinf : jsonString t <:+: jsonDumpsList r := jsonString_infix_dumps r t hmem
  rw [jsonString_plain t hp] at hinf
  have hm := like_infix_match _ _ hinf
  simpa [classLikePattern, List.append_assoc] using hm

/-- C8 (counterexample): the claim says `find_utility_class` returns all
entries whose stored token set contains the queried token.  For the token
`a\b` (one backslash) the JSON serialization in the `utility_classes`
column escapes the backslash, so the SQL `LIKE '%"a\b"%'` prefilter never
matches the row, and the entry is not returned although its token set
contains the token exactly. -/
theorem c8_counterexample :
    "a\\b" ∈ backslashRow.utility_classes ∧
    find_utility_class [backslashRow] "a\\b" = [] := by decide

/-- C8 (amended): for a queried token made of printable ASCII characters
other than the double quote and the backslash (tokens the JSON encoder
serializes verbatim — every token the parser extracts from ASCII attribute
values is of this form unless it contains a backslash), the lookup returns
exactly the entries whose stored identifier-token set contains the token by
exact, case-sensitive equality — not substring or prefix. -/
theorem c8_exact_class_lookup (rows : List DocRow) (class_name : String)
    (hp : ∀ c ∈ class_name.data, plainChar c = true) :
    find_utility_class rows class_name
      = (rows.filter (fun r => decide (class_name ∈ r.utility_classes))).map
          (fun r => ClassResult.mk r.filepath r.title r.sectionLabel class_name) := by
  unfold find_utility_class
  refine (foldl_append_filter_map
    (fun r : DocRow => class_name ∈ r.utility_classes)
    (fun r : DocRow => ClassResult.mk r.filepath r.title r.sectionLabel class_name)
    _ []).trans ?_
  rw [List.nil_append, List.filter_filter]
  congr 1
  apply List.filter_congr
  intro r _
  by_cases hmem : class_name ∈ r.utility_classes
  · simp [hmem, classLike_complete r.utility_classes class_name hmem hp]
  · simp [hmem]

theorem c8_witness :
    find_utility_class [flexRow] "flex-1"
        = [ClassResult.mk "repo/src/pages/docs/flex-1.mdx" "Flex" "Core" "flex-1"] ∧
    find_utility_class [flexRow] "flex" = [] :=
  ⟨(c8_exact_class_lookup [flexRow] "flex-1" (by decide)).trans (by decide),
   (c8_exact_class_lookup [flexRow] "flex" (by decide)).trans (by decide)⟩

/-! ## C10: slug lookup -/

/-- C10: `get_doc_by_slug` matches the slug as a path suffix with SQL
`LIKE` semantics (ASCII-case-insensitively): a path ending in `/<S>.mdx`
with `S` case-equivalent to the slug passes the filter; among several
matches the single returned row is the first in the store's enumeration
order; with no match the result is `none`. -/
theorem c10_slug_lookup (rows : List DocRow) (slug : String) :
    (∀ (pre S : List Char), S.map charLowerNat = slug.data.map charLowerNat →
      likeCore (slugPattern slug) (pre ++ '/' :: (S ++ ['.', 'm', 'd', 'x'])) = true) ∧
    (∀ (l1 l2 : List DocRow) (r : DocRow), rows = l1 ++ r :: l2 →
      (∀ r' ∈ l1, likeCore (slugPattern slug) r'.filepath.data = false) →
      likeCore (slugPattern slug) r.filepath.data = true →
      get_doc_by_slug rows slug = some (mkFullDoc r)) ∧
    ((∀ r ∈ rows, likeCore (slugPattern slug) r.filepath.data = false) →
      get_doc_by_slug rows slug = none) := by
  refine ⟨?_, ?_, ?_⟩
  · intro pre S hS
    have hPT : ('/' :: (slug.data ++ ['.', 'm', 'd', 'x'])).map charLowerNat
        = ('/' :: (S ++ ['.', 'm', 'd', 'x'])).map charLowerNat := by
      simp [List.map_cons, List.map_append, hS]
    have hbase := like_caseEq_append _ _ [] []
      hPT (by decide : likeCore [] [] = true)
    rw [List.append_nil, List.append_nil] at hbase
    have hT := like_pct_start _ _ hbase
    have hfull := like_pct_extend _ pre _ hT
    simpa [slugPattern] using hfull
  · intro l1 l2 r hrows hl1 hr
    unfold get_doc_by_slug
    subst hrows
    rw [List.filter_append,
      List.filter_eq_nil_iff.mpr (fun a ha => by simp [hl1 a ha])]
    simp [List.filter_cons, hr]
  · intro hall
    unfold get_doc_by_slug
    rw [List.filter_eq_nil_iff.mpr (fun a ha => by simp [hall a ha])]
    rfl

theorem c10_witness :
    get_doc_by_slug [gridRow] "grid" = some (mkFullDoc gridRow) :=
  (c10_slug_lookup [gridRow] "grid").2.1 [] [] gridRow rfl
    (fun r' hr' => absurd hr' (List.not_mem_nil r')) (by decide)

/-! ## C9: variant search -/

set_option maxHeartbeats 1600000 in
/-- C9: `search_variants` issues the full-text query that is the ` OR `
join of exactly the five derived phrases (the quoted variant-plus-colon,
the bare variant name, and the quoted phrases with `state`, `variant`,
`modifier`), runs it through the same ranking/limit pipeline as `search`,
tags every returned result with the queried variant name, and in
particular a document containing only the literal text `hover:bg-blue-500`
is retrieved by `search_variants` for the variant `hover`. -/
theorem c9_variant_search (rows : List DocRow) (v : String) (limit : Int)
    (rank : List DocRow → List DocRow) :
    variantQuery v
        = "\"" ++ v ++ ":\" OR " ++ v ++ " OR \"" ++ v ++ " state\" OR \""
            ++ v ++ " variant\" OR \"" ++ v ++ " modifier\"" ∧
    search_variants rows v limit rank
        = (search rows (variantQuery v) limit rank).map
            (fun s => VariantResult.mk s.file s.title s.sectionLabel s.description v) ∧
    (∀ r ∈ search_variants rows v limit rank, r.variant_type = v) ∧
    search_variants [hoverDoc] "hover" 10 id
        = [mkVariantResult "hover" hoverDoc] := by
  refine ⟨?_, ?_, ?_, ?_⟩
  · apply String.ext
    simp [variantQuery, String.intercalate, String.intercalate.go,
      String.data_append, List.append_assoc]
  · unfold search_variants search
    cases ftsSelect rows (variantQuery v) limit rank with
    | error e => rfl
    | ok rs =>
      simp only [List.map_map]
      rfl
  · intro r hr
    unfold search_variants at hr
    cases hF : ftsSelect rows (variantQuery v) limit rank with
    | error e =>
      rw [hF] at hr
      simp at hr
    | ok rs =>
      rw [hF] at hr
      simp only [List.mem_map] at hr
      obtain ⟨x, _, rfl⟩ := hr
      rfl
  · decide

theorem c9_witness :
    (mkVariantResult "hover" hoverDoc).variant_type = "hover" :=
  (c9_variant_search [hoverDoc] "hover" 10 id).2.2.1
    (mkVariantResult "hover" hoverDoc) (by decide)

end TailwindSpec
